import Mathlib

set_option maxRecDepth 100000

/-
Shallow embedding of src/logic/pulse_extraction_logic.py (class PulseExtractionLogic).

Modelling conventions:
- Counter traces are integer count arrays; a 1-D numpy int array is a List ℤ,
  a 2-D array is a List (List ℤ). The working gradient array is a numpy float
  array; its values are modelled by Frac, an exact unnormalized fraction of
  integers, so that every definition evaluates inside the kernel. All
  properties proved below are independent of floating-point rounding: they
  concern indices, lengths and slicing, never the magnitudes themselves.
- scipy.ndimage.filters.gaussian_filter1d(x, std_dev) correlates x with a
  normalized Gaussian kernel and casts the result back to the integer dtype
  of the input (truncation toward zero). The kernel weights are
  transcendental reals, so the kernel generator is an explicit parameter
  gk : Frac → List Frac of every definition; all theorems hold for an
  arbitrary generator, hence in particular for the Gaussian one. gkId below
  is a concrete identity kernel used to evaluate the pipeline on closed
  inputs.
- numpy basic slicing (a negative index is shifted once by the length, then
  clamped) is modelled by pyIdx; slice assignment of the scalar 0 by
  zeroSlice.
- Exceptions raised by numpy and scipy are modelled by Except ExtractError:
  np.gradient raises for arrays of fewer than 2 samples (gradientError);
  tuple unpacking of an array whose length is not the number of targets
  raises (unpackError); np.max of an empty array raises (maxEmptyError);
  np.zeros with a negative dimension raises (negativeDimError); assigning an
  array of incompatible length into a row raises a broadcast error
  (broadcastError), except that a length-1 array broadcasts by replication.
-/

namespace PulseExtraction

/-- Exact value of a numpy float: an unnormalized fraction of integers. The
denominator is positive in every value the pipeline builds (literals have
denominator 1, the central difference of np.gradient denominator 2). -/
structure Frac where
  num : ℤ
  den : ℤ
  deriving DecidableEq

/-- The rational zero. -/
def Frac.zero : Frac := ⟨0, 1⟩

/-- Embedding of an integer count into the float world. -/
def Frac.ofInt (z : ℤ) : Frac := ⟨z, 1⟩

/-- Exact addition by cross multiplication (no normalization). -/
def Frac.add (a b : Frac) : Frac := ⟨a.num * b.den + b.num * a.den, a.den * b.den⟩

/-- Exact multiplication (no normalization). -/
def Frac.mul (a b : Frac) : Frac := ⟨a.num * b.num, a.den * b.den⟩

/-- Comparison a < b, valid for fractions with nonzero denominators of any
sign: cross multiply and correct the sign by the product of denominators. -/
def Frac.lt (a b : Frac) : Bool :=
  (a.num * b.den - b.num * a.den) * (a.den * b.den) < 0

/-- Dot product of two float lists, truncating to the shorter one. -/
def dotF (a b : List Frac) : Frac :=
  (List.zipWith Frac.mul a b).foldr Frac.add Frac.zero

/-- The mode=reflect boundary extension used by scipy.ndimage correlate1d:
pad r samples on each side by reflecting the array ends. -/
def reflectPad (xs : List Frac) (r : Nat) : List Frac :=
  (xs.take r).reverse ++ xs ++ (xs.drop (xs.length - r)).reverse

/-- Correlation of xs with a centered kernel, reflect boundary mode, output
length equal to the input length (scipy.ndimage.correlate1d). -/
def correlate1d (kernel : List Frac) (xs : List Frac) : List Frac :=
  (List.range xs.length).map (fun i =>
    dotF kernel (((reflectPad xs ((kernel.length - 1) / 2)).drop i).take kernel.length))

/-- Truncation toward zero, the cast a float receives when stored back into
an integer numpy array. -/
def truncToInt (q : Frac) : ℤ :=
  if (q.num < 0) = (q.den < 0) then ((q.num.natAbs / q.den.natAbs : ℕ) : ℤ)
  else -((q.num.natAbs / q.den.natAbs : ℕ) : ℤ)

/-- scipy.ndimage.filters.gaussian_filter1d on an integer array: correlate
with the kernel gk std_dev and cast back to the integer dtype. -/
def gaussian_filter1d (gk : Frac → List Frac) (std_dev : Frac) (xs : List ℤ) : List ℤ :=
  (correlate1d (gk std_dev) (xs.map Frac.ofInt)).map truncToInt

/-- np.gradient on a 1-D integer array: one-sided differences at the two
ends, central differences halved in the interior. Callers guard the
length-2 minimum that numpy enforces. -/
def np_gradient (xs : List ℤ) : List Frac :=
  (List.range xs.length).map (fun i =>
    if i = 0 then Frac.ofInt (xs.getD 1 0 - xs.getD 0 0)
    else if i = xs.length - 1 then Frac.ofInt (xs.getD i 0 - xs.getD (i - 1) 0)
    else ⟨xs.getD (i + 1) 0 - xs.getD (i - 1) 0, 2⟩)

/-- The runtime exceptions the extraction code can raise. -/
inductive ExtractError where
  | gradientError
  | unpackError
  | shapeError
  | maxEmptyError
  | negativeDimError
  | broadcastError
  deriving DecidableEq

/-- convolve_derive(timetrace, std_dev): Gaussian smoothing followed by
np.gradient. The returned value is the single array conv_deriv; the local
conv is dead in the source. np.gradient raises for fewer than 2 samples. -/
def convolve_derive (gk : Frac → List Frac) (timetrace : List ℤ) (std_dev : Frac) :
    Except ExtractError (List Frac) :=
  if timetrace.length < 2 then .error .gradientError
  else .ok (np_gradient (gaussian_filter1d gk std_dev timetrace))

/-- Python slice-bound normalization for an array of length n: a negative
index is shifted once by n, then the result is clamped into [0, n]. -/
def pyIdx (n : Nat) (i : Int) : Nat :=
  if i < 0 then
    if i + n < 0 then 0 else min (i + n).toNat n
  else min i.toNat n

/-- The slice assignment cd[s : e] = 0 on a 1-D float array. -/
def zeroSlice (cd : List Frac) (s e : Int) : List Frac :=
  (List.range cd.length).map (fun k =>
    if pyIdx cd.length s ≤ k ∧ k < pyIdx cd.length e then Frac.zero
    else cd.getD k Frac.zero)

/-- The exclusion-window write conv_deriv[i-100 : i+100] = 0 of the ungated
loop. -/
def zeroAroundEdge (cd : List Frac) (i : Nat) : List Frac :=
  zeroSlice cd ((i : Int) - 100) ((i : Int) + 100)

/-- np.argmax helper: first index attaining the running maximum. -/
def argmaxFrom : Nat → Nat → Frac → List Frac → Nat
  | _, bi, _, [] => bi
  | i, bi, bv, x :: rest =>
    if Frac.lt bv x then argmaxFrom (i + 1) i x rest
    else argmaxFrom (i + 1) bi bv rest

/-- np.argmax on a 1-D float array (first index of the maximum). -/
def argmaxF : List Frac → Nat
  | [] => 0
  | x :: rest => argmaxFrom 1 0 x rest

/-- np.argmin helper: first index attaining the running minimum. -/
def argminFrom : Nat → Nat → Frac → List Frac → Nat
  | _, bi, _, [] => bi
  | i, bi, bv, x :: rest =>
    if Frac.lt x bv then argminFrom (i + 1) i x rest
    else argminFrom (i + 1) bi bv rest

/-- np.argmin on a 1-D float array (first index of the minimum). -/
def argminF : List Frac → Nat
  | [] => 0
  | x :: rest => argminFrom 1 0 x rest

/-- One iteration of the ungated detection loop, acting on the mutable store
(count_data, conv_deriv): locate the rising edge as argmax of conv_deriv,
zero its exclusion window, locate the falling edge as argmin of the updated
array, zero its window. Only the conv_deriv component is ever written. -/
def ungatedStep (st : List ℤ × List Frac) : (List ℤ × List Frac) × Nat × Nat :=
  let r := argmaxF st.2
  let cd1 := zeroAroundEdge st.2 r
  let f := argminF cd1
  let cd2 := zeroAroundEdge cd1 f
  ((st.1, cd2), r, f)

/-- The for-loop over range(num_of_lasers): returns the final store and the
rising and falling index arrays in detection order. -/
def ungatedLoop : Nat → (List ℤ × List Frac) → (List ℤ × List Frac) × List Nat × List Nat
  | 0, st => (st, [], [])
  | n + 1, st =>
    let s := ungatedStep st
    let rest := ungatedLoop n s.1
    (rest.1, s.2.1 :: rest.2.1, s.2.2 :: rest.2.2)

/-- The row write laser_arr[i] = count_data[rising : rising + laser_length]
into a row of length Ln: the Python slice is clamped to the array, then
numpy broadcasting requires the value to have length Ln (copied as is) or
length 1 (replicated); any other length raises. -/
def assignRow (Ln : Nat) (s : List ℤ) : Option (List ℤ) :=
  if s.length = Ln then some s
  else if s.length = 1 then some (List.replicate Ln (s.headD 0))
  else none

/-- All num_of_lasers row writes, one per sorted rising index. -/
def assignRows (Ln : Nat) (cd : List ℤ) : List Nat → Option (List (List ℤ))
  | [] => some []
  | r :: rs =>
    match assignRow Ln ((cd.drop r).take Ln), assignRows Ln cd rs with
    | some row, some rest => some (row :: rest)
    | _, _ => none

/-- The body of _ungated_extraction after convolve_derive succeeded: run the
detection loop on the store (count_data, conv_deriv), sort both index arrays
ascending (ndarray.sort), take laser_length = np.max(falling - rising), and
build the rows from the final store. Returns the final count_data contents
together with the result. -/
def ungatedCore (num_of_lasers : Nat) (count_data : List ℤ) (conv_deriv : List Frac) :
    List ℤ × Except ExtractError (List (List ℤ)) :=
  let p := ungatedLoop num_of_lasers (count_data, conv_deriv)
  let rising := List.insertionSort (fun a b => a ≤ b) p.2.1
  let falling := List.insertionSort (fun a b => a ≤ b) p.2.2
  match (List.zipWith (fun (fi ri : Nat) => (fi : ℤ) - (ri : ℤ)) falling rising).max? with
  | none => (p.1.1, .error .maxEmptyError)
  | some L =>
    if L < 0 then (p.1.1, .error .negativeDimError)
    else
      match assignRows L.toNat p.1.1 rising with
      | none => (p.1.1, .error .broadcastError)
      | some rows => (p.1.1, .ok rows)

/-- _ungated_extraction(count_data) with the mutable store made explicit:
the first component of the result is the contents of the count_data array
after the call. -/
def ungated_extraction_st (gk : Frac → List Frac) (num_of_lasers : Nat)
    (conv_std_dev : Frac) (count_data : List ℤ) :
    List ℤ × Except ExtractError (List (List ℤ)) :=
  match convolve_derive gk count_data conv_std_dev with
  | .error e => (count_data, .error e)
  | .ok conv_deriv => ungatedCore num_of_lasers count_data conv_deriv

/-- _ungated_extraction(count_data): the value returned to the caller. -/
def ungated_extraction (gk : Frac → List Frac) (num_of_lasers : Nat)
    (conv_std_dev : Frac) (count_data : List ℤ) : Except ExtractError (List (List ℤ)) :=
  (ungated_extraction_st gk num_of_lasers conv_std_dev count_data).2

/-- The sorted rising and falling index arrays of the ungated path, when the
gradient computation succeeds. -/
def ungatedEdges (gk : Frac → List Frac) (num_of_lasers : Nat) (conv_std_dev : Frac)
    (count_data : List ℤ) : Option (List Nat × List Nat) :=
  match convolve_derive gk count_data conv_std_dev with
  | .error _ => none
  | .ok conv_deriv =>
    let p := ungatedLoop num_of_lasers (count_data, conv_deriv)
    some (List.insertionSort (fun a b => a ≤ b) p.2.1,
          List.insertionSort (fun a b => a ≤ b) p.2.2)

/-- np.sum(count_data, 0): element-wise sum of all rows of a rectangular
2-D integer array. -/
def sumRows : List (List ℤ) → List ℤ
  | [] => []
  | r :: rs => rs.foldl (fun acc row => List.zipWith (fun a b => a + b) acc row) r

/-- _gated_extraction(count_data). The source unpacks the single array
returned by convolve_derive into the two targets conv_deriv, conv; iterable
unpacking of a 1-D array succeeds only when its length is exactly 2. In
that case conv_deriv is bound to the first entry, a numpy scalar, whose
argmax and argmin are both 0, so every row is sliced to count_data[:, 0:0].
Any other length of at least 2 raises at the unpacking. -/
def gated_extraction (gk : Frac → List Frac) (conv_std_dev : Frac)
    (count_data : List (List ℤ)) : Except ExtractError (List (List ℤ)) :=
  match convolve_derive gk (sumRows count_data) conv_std_dev with
  | .error e => .error e
  | .ok conv_deriv =>
    if conv_deriv.length = 2 then
      .ok (count_data.map (fun row => (row.drop 0).take (0 - 0)))
    else .error .unpackError

/-- The configuration attributes of PulseExtractionLogic that extraction
reads (set in __init__ and activation, never written during extraction). -/
structure PulseExtractionLogic where
  is_counter_gated : Bool
  num_of_lasers : Nat
  conv_std_dev : Frac

/-- The raw data returned by the fast counter device: a 1-D trace for an
ungated counter, a 2-D array of gate repetitions for a gated one. -/
inductive RawData where
  | oneD (trace : List ℤ)
  | twoD (rows : List (List ℤ))
  deriving DecidableEq

/-- get_data_laserpulses: dispatch on the cached is_counter_gated flag. The
result carries the configuration object and the raw-data array as they
stand after the call, exposing any mutation the extraction performed. A
shape mismatch between the flag and the array dimensionality is modelled as
shapeError. -/
def get_data_laserpulses (gk : Frac → List Frac) (self : PulseExtractionLogic)
    (raw : RawData) : PulseExtractionLogic × RawData × Except ExtractError (List (List ℤ)) :=
  if self.is_counter_gated then
    match raw with
    | .twoD rows => (self, .twoD rows, gated_extraction gk self.conv_std_dev rows)
    | .oneD tr => (self, .oneD tr, .error .shapeError)
  else
    match raw with
    | .oneD tr =>
      let r := ungated_extraction_st gk self.num_of_lasers self.conv_std_dev tr
      (self, .oneD r.1, r.2)
    | .twoD rows => (self, .twoD rows, .error .shapeError)

/-- Identity smoothing kernel, a concrete instance of the abstract kernel
generator used to evaluate the pipeline on closed inputs. -/
def gkId : Frac → List Frac := fun _ => [Frac.ofInt 1]

/-- The standard deviation 20 used by the module configuration. -/
def sd20 : Frac := Frac.ofInt 20

/-- A 250-sample ungated trace: a pulse ramping up at sample 30, holding a
plateau of 100 through sample 59, ramping down at sample 60, then flat
zero, with a single bright sample at the last index 249. -/
def t250 : List ℤ :=
  List.replicate 30 0 ++ [50] ++ List.replicate 28 100 ++ [100, 50] ++
    List.replicate 188 0 ++ [500]

theorem length_zeroSlice (cd : List Frac) (s e : Int) :
    (zeroSlice cd s e).length = cd.length := by
  simp [zeroSlice]

theorem getD_map_range (n k : Nat) (f : Nat → Frac) (d : Frac) (h : k < n) :
    ((List.range n).map f).getD k d = f k := by
  have h2 : k < ((List.range n).map f).length := by simpa using h
  rw [List.getD_eq_getElem _ _ h2]
  simp

theorem range_map_getD (l : List Frac) (d : Frac) :
    (List.range l.length).map (fun k => l.getD k d) = l := by
  apply List.ext_getElem
  · simp
  · intro i h1 h2
    simp only [List.getElem_map, List.getElem_range]
    exact List.getD_eq_getElem _ _ h2

/-- C10: in ungated mode, for an edge index below 100 in a trace of length
at least 200, the exclusion-window assignment conv_deriv[i-100 : i+100] = 0
normalizes to an empty Python slice, so the working gradient array is left
completely unchanged and the edge is not suppressed. -/
theorem exclusion_window_noop (cd : List Frac) (i : Nat) (h1 : i < 100)
    (h2 : 200 ≤ cd.length) : zeroAroundEdge cd i = cd := by
  have ha : pyIdx cd.length ((i : Int) - 100) = i + cd.length - 100 := by
    unfold pyIdx
    rw [if_pos (by omega), if_neg (by omega)]
    omega
  have hb : pyIdx cd.length ((i : Int) + 100) = i + 100 := by
    unfold pyIdx
    rw [if_neg (by omega)]
    omega
  unfold zeroAroundEdge zeroSlice
  rw [ha, hb]
  have hc : ∀ k ∈ List.range cd.length,
      (if i + cd.length - 100 ≤ k ∧ k < i + 100 then Frac.zero
       else cd.getD k Frac.zero) = cd.getD k Frac.zero := by
    intro k _
    rw [if_neg (by omega)]
  rw [List.map_congr_left hc, range_map_getD]

/-- Witness for C10 at the concrete edge index 0 in a length-200 gradient
array of ones: the exclusion-window write changes nothing. -/
theorem exclusion_window_noop_witness :
    (0 : Nat) < 100 ∧
      zeroAroundEdge (List.replicate 200 (Frac.ofInt 1)) 0 =
        List.replicate 200 (Frac.ofInt 1) :=
  ⟨by decide, exclusion_window_noop (List.replicate 200 (Frac.ofInt 1)) 0
    (by decide) (by simp)⟩

/-- C4 (amended): after locating an edge at index i, the loop assigns zero
over the Python slice [i-100 : i+100] of the working gradient array; when
100 ≤ i and i + 100 ≤ length this zeroes exactly the samples from i - 100
up to i + 99, the located edge included. Near the array boundaries the
slice is clamped or empty, and the same edge can then be located twice. -/
theorem exclusion_window_zeroes (cd : List Frac) (i k : Nat) (h1 : 100 ≤ i)
    (h2 : i + 100 ≤ cd.length) (h3 : i - 100 ≤ k) (h4 : k < i + 100) :
    (zeroAroundEdge cd i).getD k (Frac.ofInt 1) = Frac.zero := by
  have ha : pyIdx cd.length ((i : Int) - 100) = i - 100 := by
    unfold pyIdx
    rw [if_neg (by omega)]
    omega
  have hb : pyIdx cd.length ((i : Int) + 100) = i + 100 := by
    unfold pyIdx
    rw [if_neg (by omega)]
    omega
  unfold zeroAroundEdge zeroSlice
  rw [ha, hb]
  have hk : k < cd.length := by omega
  rw [getD_map_range _ _ _ _ hk]
  rw [if_pos (by omega)]

/-- Witness for the amended C4: zeroing around the interior edge index 100
of a length-200 gradient array of ones zeroes sample 150. -/
theorem exclusion_window_zeroes_witness :
    (100 : Nat) ≤ 100 ∧
      (zeroAroundEdge (List.replicate 200 (Frac.ofInt 1)) 100).getD 150
        (Frac.ofInt 1) = Frac.zero :=
  ⟨by decide, exclusion_window_zeroes (List.replicate 200 (Frac.ofInt 1)) 100 150
    (by decide) (by simp) (by decide) (by decide)⟩

/-- Counterexample to C4 as stated: locating the rising edge at index 0 of
a working array whose head is the strict maximum performs both exclusion
writes without zeroing anything (the array, head included, is unchanged),
and on an all-zero working array both loop iterations return the same
rising-edge index 0, so the same edge is found twice. -/
theorem exclusion_window_cex :
    (ungatedStep ([], Frac.ofInt 5 :: List.replicate 199 (Frac.ofInt 1))).1.2 =
        Frac.ofInt 5 :: List.replicate 199 (Frac.ofInt 1) ∧
      (ungatedStep ([], Frac.ofInt 5 :: List.replicate 199 (Frac.ofInt 1))).2.1 = 0 ∧
      (ungatedLoop 2 ([], List.replicate 200 Frac.zero)).2.1 = [0, 0] :=
  ⟨rfl, rfl, rfl⟩

theorem ungatedLoop_fst (n : Nat) : ∀ st : List ℤ × List Frac, (ungatedLoop n st).1.1 = st.1 := by
  induction n with
  | zero => intro st; rfl
  | succ k ih =>
    intro st
    show (ungatedLoop k (ungatedStep st).1).1.1 = st.1
    rw [ih]
    rfl

theorem ungatedLoop_length_rising (n : Nat) :
    ∀ st : List ℤ × List Frac, (ungatedLoop n st).2.1.length = n := by
  induction n with
  | zero => intro st; rfl
  | succ k ih =>
    intro st
    show ((ungatedStep st).2.1 :: (ungatedLoop k (ungatedStep st).1).2.1).length = k + 1
    simp [ih]

theorem ungatedLoop_length_falling (n : Nat) :
    ∀ st : List ℤ × List Frac, (ungatedLoop n st).2.2.length = n := by
  induction n with
  | zero => intro st; rfl
  | succ k ih =>
    intro st
    show ((ungatedStep st).2.2 :: (ungatedLoop k (ungatedStep st).1).2.2).length = k + 1
    simp [ih]

theorem assignRow_some_length (Ln : Nat) (s row : List ℤ)
    (h : assignRow Ln s = some row) : row.length = Ln := by
  unfold assignRow at h
  by_cases h1 : s.length = Ln
  · rw [if_pos h1] at h
    injection h with h2
    rw [← h2]
    exact h1
  · rw [if_neg h1] at h
    by_cases h2 : s.length = 1
    · rw [if_pos h2] at h
      injection h with h3
      rw [← h3]
      exact List.length_replicate _ _
    · rw [if_neg h2] at h
      exact Option.noConfusion h

theorem assignRow_some_cases (Ln : Nat) (s row : List ℤ)
    (h : assignRow Ln s = some row) :
    row = s ∨ (s.length = 1 ∧ row = List.replicate Ln (s.headD 0)) := by
  unfold assignRow at h
  by_cases h1 : s.length = Ln
  · rw [if_pos h1] at h
    injection h with h2
    exact Or.inl h2.symm
  · rw [if_neg h1] at h
    by_cases h2 : s.length = 1
    · rw [if_pos h2] at h
      injection h with h3
      exact Or.inr ⟨h2, h3.symm⟩
    · rw [if_neg h2] at h
      exact Option.noConfusion h

theorem assignRows_some_length (Ln : Nat) (cd : List ℤ) :
    ∀ (rs : List Nat) (rows : List (List ℤ)), assignRows Ln cd rs = some rows →
      rows.length = rs.length := by
  intro rs
  induction rs with
  | nil =>
    intro rows h
    injection h with h2
    rw [← h2]
    rfl
  | cons r rest ih =>
    intro rows h
    unfold assignRows at h
    cases h1 : assignRow Ln ((cd.drop r).take Ln) with
    | none =>
      cases h2 : assignRows Ln cd rest with
      | none => rw [h1, h2] at h; exact Option.noConfusion h
      | some rows2 => rw [h1, h2] at h; exact Option.noConfusion h
    | some row =>
      cases h2 : assignRows Ln cd rest with
      | none => rw [h1, h2] at h; exact Option.noConfusion h
      | some rows2 =>
        rw [h1, h2] at h
        injection h with h3
        subst h3
        simp [ih rows2 h2]

theorem assignRows_mem_length (Ln : Nat) (cd : List ℤ) :
    ∀ (rs : List Nat) (rows : List (List ℤ)), assignRows Ln cd rs = some rows →
      ∀ row ∈ rows, row.length = Ln := by
  intro rs
  induction rs with
  | nil =>
    intro rows h
    injection h with h2
    rw [← h2]
    intro row hrow
    exact absurd hrow (List.not_mem_nil row)
  | cons r rest ih =>
    intro rows h
    unfold assignRows at h
    cases h1 : assignRow Ln ((cd.drop r).take Ln) with
    | none =>
      cases h2 : assignRows Ln cd rest with
      | none => rw [h1, h2] at h; exact Option.noConfusion h
      | some rows2 => rw [h1, h2] at h; exact Option.noConfusion h
    | some row =>
      cases h2 : assignRows Ln cd rest with
      | none => rw [h1, h2] at h; exact Option.noConfusion h
      | some rows2 =>
        rw [h1, h2] at h
        injection h with h3
        subst h3
        intro row2 hrow2
        rcases List.mem_cons.mp hrow2 with h4 | h4
        · rw [h4]
          exact assignRow_some_length Ln _ _ h1
        · exact ih rows2 h2 row2 h4

theorem assignRows_getD (Ln : Nat) (cd : List ℤ) :
    ∀ (rs : List Nat) (rows : List (List ℤ)), assignRows Ln cd rs = some rows →
      ∀ i, i < rows.length →
        assignRow Ln ((cd.drop (rs.getD i 0)).take Ln) = some (rows.getD i []) := by
  intro rs
  induction rs with
  | nil =>
    intro rows h i hi
    injection h with h2
    rw [← h2] at hi
    exact absurd hi (by simp)
  | cons r rest ih =>
    intro rows h
    unfold assignRows at h
    cases h1 : assignRow Ln ((cd.drop r).take Ln) with
    | none =>
      cases h2 : assignRows Ln cd rest with
      | none => rw [h1, h2] at h; exact Option.noConfusion h
      | some rows2 => rw [h1, h2] at h; exact Option.noConfusion h
    | some row =>
      cases h2 : assignRows Ln cd rest with
      | none => rw [h1, h2] at h; exact Option.noConfusion h
      | some rows2 =>
        rw [h1, h2] at h
        injection h with h3
        subst h3
        intro i hi
        cases i with
        | zero => simpa using h1
        | succ j =>
          have hj : j < rows2.length := by simpa using hi
          simpa using ih rows2 h2 j hj

theorem ungatedCore_fst (N : Nat) (cd : List ℤ) (g : List Frac) :
    (ungatedCore N cd g).1 = cd := by
  simp only [ungatedCore]
  split
  · exact ungatedLoop_fst N (cd, g)
  · split
    · exact ungatedLoop_fst N (cd, g)
    · split
      · exact ungatedLoop_fst N (cd, g)
      · exact ungatedLoop_fst N (cd, g)

theorem ungated_st_fst (gk : Frac → List Frac) (N : Nat) (σ : Frac) (cd : List ℤ) :
    (ungated_extraction_st gk N σ cd).1 = cd := by
  unfold ungated_extraction_st
  cases hc : convolve_derive gk cd σ with
  | error e => rfl
  | ok g => exact ungatedCore_fst N cd g

theorem ungatedCore_ok (N : Nat) (cd : List ℤ) (g : List Frac) (rows : List (List ℤ))
    (h : (ungatedCore N cd g).2 = .ok rows) :
    ∃ L : ℤ, 0 ≤ L ∧
      (List.zipWith (fun (fi ri : Nat) => (fi : ℤ) - (ri : ℤ))
        (List.insertionSort (fun a b => a ≤ b) (ungatedLoop N (cd, g)).2.2)
        (List.insertionSort (fun a b => a ≤ b) (ungatedLoop N (cd, g)).2.1)).max? = some L ∧
      assignRows L.toNat cd
        (List.insertionSort (fun a b => a ≤ b) (ungatedLoop N (cd, g)).2.1) = some rows := by
  simp only [ungatedCore] at h
  cases hm : (List.zipWith (fun (fi ri : Nat) => (fi : ℤ) - (ri : ℤ))
      (List.insertionSort (fun a b => a ≤ b) (ungatedLoop N (cd, g)).2.2)
      (List.insertionSort (fun a b => a ≤ b) (ungatedLoop N (cd, g)).2.1)).max? with
  | none => rw [hm] at h; exact Except.noConfusion h
  | some L =>
    rw [hm] at h
    have h2 : (if L < 0 then
          ((ungatedLoop N (cd, g)).1.1, Except.error ExtractError.negativeDimError)
        else
          match assignRows L.toNat (ungatedLoop N (cd, g)).1.1
              (List.insertionSort (fun a b => a ≤ b) (ungatedLoop N (cd, g)).2.1) with
          | none => ((ungatedLoop N (cd, g)).1.1, Except.error ExtractError.broadcastError)
          | some rows2 => ((ungatedLoop N (cd, g)).1.1, Except.ok rows2)).2 =
        Except.ok rows := h
    by_cases hL : L < 0
    · rw [if_pos hL] at h2
      exact Except.noConfusion h2
    · rw [if_neg hL] at h2
      cases ha : assignRows L.toNat (ungatedLoop N (cd, g)).1.1
          (List.insertionSort (fun a b => a ≤ b) (ungatedLoop N (cd, g)).2.1) with
      | none => rw [ha] at h2; exact Except.noConfusion h2
      | some rows2 =>
        rw [ha] at h2
        injection h2 with h4
        subst h4
        rw [ungatedLoop_fst] at ha
        exact ⟨L, by omega, rfl, ha⟩

/-- C2: in ungated mode, whenever extraction returns, the result has exactly
num_of_lasers segments, and every segment has length equal to
np.max(falling - rising) taken after both detected index arrays are sorted
ascending. -/
theorem ungated_shape_invariant (gk : Frac → List Frac) (N : Nat) (σ : Frac)
    (cd : List ℤ) (rows : List (List ℤ))
    (h : ungated_extraction gk N σ cd = .ok rows) :
    rows.length = N ∧ ∃ rising falling L,
      ungatedEdges gk N σ cd = some (rising, falling) ∧
      (List.zipWith (fun (fi ri : Nat) => (fi : ℤ) - (ri : ℤ)) falling rising).max? = some L ∧
      ∀ row ∈ rows, (row.length : ℤ) = L := by
  unfold ungated_extraction ungated_extraction_st at h
  cases hc : convolve_derive gk cd σ with
  | error e => rw [hc] at h; exact Except.noConfusion h
  | ok g =>
    rw [hc] at h
    obtain ⟨L, hL0, hmax, hassign⟩ := ungatedCore_ok N cd g rows h
    refine ⟨?_, List.insertionSort (fun a b => a ≤ b) (ungatedLoop N (cd, g)).2.1,
      List.insertionSort (fun a b => a ≤ b) (ungatedLoop N (cd, g)).2.2, L, ?_, hmax, ?_⟩
    · have e1 := assignRows_some_length _ _ _ _ hassign
      rw [e1, List.length_insertionSort]
      exact ungatedLoop_length_rising N (cd, g)
    · unfold ungatedEdges
      rw [hc]
    · intro row hrow
      have e2 := assignRows_mem_length _ _ _ _ hassign row hrow
      omega

/-- Witness for C2 at the all-zero trace of length 50 with num_of_lasers 1:
extraction returns one empty segment and the shape invariant holds. -/
theorem ungated_shape_invariant_witness :
    ([([] : List ℤ)].length = 1 ∧ ∃ rising falling L,
      ungatedEdges gkId 1 sd20 (List.replicate 50 0) = some (rising, falling) ∧
      (List.zipWith (fun (fi ri : Nat) => (fi : ℤ) - (ri : ℤ)) falling rising).max? = some L ∧
      ∀ row ∈ [([] : List ℤ)], (row.length : ℤ) = L) :=
  ungated_shape_invariant gkId 1 sd20 (List.replicate 50 0) [[]] rfl

/-- C5 (amended): every returned segment i is produced by the numpy
broadcast assignment of raw_data[rising_i : rising_i + laser_length] into a
row of the uniform laser_length: it equals the clamped slice when that slice
has the full length, and it equals laser_length copies of the single sample
when the clamped slice has length 1; the individually detected falling index
is never used. -/
theorem ungated_slice_rule (gk : Frac → List Frac) (N : Nat) (σ : Frac)
    (cd : List ℤ) (rows : List (List ℤ))
    (h : ungated_extraction gk N σ cd = .ok rows) :
    ∃ rising falling L,
      ungatedEdges gk N σ cd = some (rising, falling) ∧
      (List.zipWith (fun (fi ri : Nat) => (fi : ℤ) - (ri : ℤ)) falling rising).max? = some L ∧
      ∀ i, i < rows.length →
        rows.getD i [] = (cd.drop (rising.getD i 0)).take L.toNat ∨
        (((cd.drop (rising.getD i 0)).take L.toNat).length = 1 ∧
          rows.getD i [] = List.replicate L.toNat
            (((cd.drop (rising.getD i 0)).take L.toNat).headD 0)) := by
  unfold ungated_extraction ungated_extraction_st at h
  cases hc : convolve_derive gk cd σ with
  | error e => rw [hc] at h; exact Except.noConfusion h
  | ok g =>
    rw [hc] at h
    obtain ⟨L, hL0, hmax, hassign⟩ := ungatedCore_ok N cd g rows h
    refine ⟨List.insertionSort (fun a b => a ≤ b) (ungatedLoop N (cd, g)).2.1,
      List.insertionSort (fun a b => a ≤ b) (ungatedLoop N (cd, g)).2.2, L, ?_, hmax, ?_⟩
    · unfold ungatedEdges
      rw [hc]
    · intro i hi
      have e3 := assignRows_getD _ _ _ _ hassign i hi
      rcases assignRow_some_cases _ _ _ e3 with h4 | ⟨h5, h6⟩
      · exact Or.inl h4
      · exact Or.inr ⟨h5, h6⟩

/-- Witness for the amended C5 at the all-zero trace of length 50 with
num_of_lasers 1. -/
theorem ungated_slice_rule_witness :
    (∃ rising falling L,
      ungatedEdges gkId 1 sd20 (List.replicate 50 0) = some (rising, falling) ∧
      (List.zipWith (fun (fi ri : Nat) => (fi : ℤ) - (ri : ℤ)) falling rising).max? = some L ∧
      ∀ i, i < [([] : List ℤ)].length →
        [([] : List ℤ)].getD i [] =
            ((List.replicate 50 (0 : ℤ)).drop (rising.getD i 0)).take L.toNat ∨
        ((((List.replicate 50 (0 : ℤ)).drop (rising.getD i 0)).take L.toNat).length = 1 ∧
          [([] : List ℤ)].getD i [] = List.replicate L.toNat
            ((((List.replicate 50 (0 : ℤ)).drop (rising.getD i 0)).take L.toNat).headD 0))) :=
  ungated_slice_rule gkId 1 sd20 (List.replicate 50 0) [[]] rfl

/-- Counterexample to C5 as stated: on t250 with num_of_lasers 2 the sorted
rising indices are [30, 249] and laser_length is 30, but the second returned
segment is 30 copies of sample 249, not the one-sample Python slice
raw_data[249 : 279]; the slice rule with the fixed uniform length fails when
the slice is clamped to a single sample. -/
theorem ungated_slice_cex :
    ungated_extraction gkId 2 sd20 t250 =
        .ok [(50 : ℤ) :: List.replicate 29 100, List.replicate 30 500] ∧
      ungatedEdges gkId 2 sd20 t250 = some ([30, 249], [60, 60]) ∧
      (List.zipWith (fun (fi ri : Nat) => (fi : ℤ) - (ri : ℤ)) [60, 60] [30, 249]).max? =
        some 30 ∧
      (t250.drop 249).take 30 = [(500 : ℤ)] ∧
      List.replicate 30 (500 : ℤ) ≠ [500] :=
  ⟨rfl, rfl, by decide, by decide, by decide⟩

/-- C6 (amended): the rising and falling edge index arrays returned by the
ungated path are sorted ascending, but only weakly: duplicates are possible
when the exclusion window fails to suppress an edge. -/
theorem ungated_edges_sorted (gk : Frac → List Frac) (N : Nat) (σ : Frac)
    (cd : List ℤ) (rising falling : List Nat)
    (h : ungatedEdges gk N σ cd = some (rising, falling)) :
    List.Sorted (fun a b => a ≤ b) rising ∧ List.Sorted (fun a b => a ≤ b) falling := by
  unfold ungatedEdges at h
  cases hc : convolve_derive gk cd σ with
  | error e => rw [hc] at h; exact Option.noConfusion h
  | ok g =>
    rw [hc] at h
    injection h with h2
    injection h2 with hr hf
    rw [← hr, ← hf]
    exact ⟨List.sorted_insertionSort _ _, List.sorted_insertionSort _ _⟩

/-- Witness for the amended C6 at the all-zero trace of length 50 with
num_of_lasers 1. -/
theorem ungated_edges_sorted_witness :
    ungatedEdges gkId 1 sd20 (List.replicate 50 0) = some ([0], [0]) ∧
      (List.Sorted (fun a b => a ≤ b) [0] ∧ List.Sorted (fun a b => a ≤ b) [0]) :=
  ⟨rfl, ungated_edges_sorted gkId 1 sd20 (List.replicate 50 0) [0] [0] rfl⟩

/-- Counterexample to C6 as stated: on the all-zero trace of length 200 with
num_of_lasers 2 extraction returns normally, but both rising indices are 0
(and both falling indices are 0), so the sorted index arrays are not
strictly ascending and not pairwise distinct. -/
theorem ungated_edges_cex :
    ungated_extraction gkId 2 sd20 (List.replicate 200 0) = .ok [[], []] ∧
      ungatedEdges gkId 2 sd20 (List.replicate 200 0) = some ([0, 0], [0, 0]) ∧
      ¬ List.Sorted (fun a b => a < b) [0, 0] :=
  ⟨rfl, rfl, by decide⟩

/-- C8: extraction is free of side effects on its input and configuration:
get_data_laserpulses returns the configuration object and the raw-data array
unchanged; the exclusion-window writes touch only the working gradient array
created inside the call. -/
theorem extraction_pure (gk : Frac → List Frac) (s : PulseExtractionLogic)
    (raw : RawData) :
    (get_data_laserpulses gk s raw).1 = s ∧ (get_data_laserpulses gk s raw).2.1 = raw := by
  unfold get_data_laserpulses
  cases hg : s.is_counter_gated with
  | false =>
    cases raw with
    | oneD tr =>
      constructor
      · rfl
      · show RawData.oneD (ungated_extraction_st gk s.num_of_lasers s.conv_std_dev tr).1 =
          RawData.oneD tr
        rw [ungated_st_fst]
    | twoD rows => exact ⟨rfl, rfl⟩
  | true =>
    cases raw with
    | oneD tr => exact ⟨rfl, rfl⟩
    | twoD rows => exact ⟨rfl, rfl⟩

theorem length_correlate1d (k xs : List Frac) : (correlate1d k xs).length = xs.length := by
  simp [correlate1d]

theorem length_gaussian_filter1d (gk : Frac → List Frac) (σ : Frac) (xs : List ℤ) :
    (gaussian_filter1d gk σ xs).length = xs.length := by
  simp [gaussian_filter1d, length_correlate1d]

theorem length_np_gradient (xs : List ℤ) : (np_gradient xs).length = xs.length := by
  simp [np_gradient]

theorem dotF_num_zero (k : List Frac) :
    ∀ b : List Frac, (∀ x ∈ b, x.num = 0) → (dotF k b).num = 0 := by
  induction k with
  | nil => intro b hb; rfl
  | cons a k ih =>
    intro b hb
    cases b with
    | nil => rfl
    | cons y ys =>
      have hy : y.num = 0 := hb y (by simp)
      have hr : (dotF k ys).num = 0 :=
        ih ys (fun x hx => hb x (List.mem_cons_of_mem y hx))
      show (Frac.add (Frac.mul a y) (dotF k ys)).num = 0
      simp [Frac.add, Frac.mul, hy, hr]

theorem mem_reflectPad_num_zero (xs : List Frac) (r : Nat)
    (hxs : ∀ x ∈ xs, x.num = 0) : ∀ x ∈ reflectPad xs r, x.num = 0 := by
  intro x hx
  unfold reflectPad at hx
  rcases List.mem_append.mp hx with h1 | h1
  · rcases List.mem_append.mp h1 with h2 | h2
    · exact hxs x (List.take_subset _ _ (List.mem_reverse.mp h2))
    · exact hxs x h2
  · exact hxs x (List.drop_subset _ _ (List.mem_reverse.mp h1))

theorem correlate1d_num_zero (k xs : List Frac) (hxs : ∀ x ∈ xs, x.num = 0) :
    ∀ y ∈ correlate1d k xs, y.num = 0 := by
  intro y hy
  unfold correlate1d at hy
  rcases List.mem_map.mp hy with ⟨i, hi, hEq⟩
  rw [← hEq]
  apply dotF_num_zero
  intro x hx
  exact mem_reflectPad_num_zero xs _ hxs x
    (List.drop_subset _ _ (List.take_subset _ _ hx))

theorem truncToInt_num_zero (q : Frac) (h : q.num = 0) : truncToInt q = 0 := by
  unfold truncToInt
  rw [h]
  simp

theorem gaussian_filter1d_zero (gk : Frac → List Frac) (σ : Frac) (n : Nat) :
    gaussian_filter1d gk σ (List.replicate n 0) = List.replicate n 0 := by
  unfold gaussian_filter1d
  have h1 : ∀ x ∈ (List.replicate n (0 : ℤ)).map Frac.ofInt, x.num = 0 := by
    intro x hx
    rcases List.mem_map.mp hx with ⟨z, hz, hEq⟩
    rw [← hEq]
    have hz2 := List.eq_of_mem_replicate hz
    simp [Frac.ofInt, hz2]
  rw [List.map_congr_left
    (fun y hy => truncToInt_num_zero y (correlate1d_num_zero (gk σ) _ h1 y hy))]
  rw [List.map_const', length_correlate1d]
  simp

theorem convolve_derive_zero (gk : Frac → List Frac) (σ : Frac) (n : Nat) (h : 2 ≤ n) :
    convolve_derive gk (List.replicate n 0) σ = .ok (np_gradient (List.replicate n 0)) := by
  unfold convolve_derive
  rw [List.length_replicate, if_neg (by omega), gaussian_filter1d_zero]

/-- C3 (amended): the code performs no minimum-length validation and defines
no InsufficientDataError. The all-zero trace of length 30 (shorter than
2 times the smoothing width 20) and the scenario-C all-zero trace of length
50 both return a single empty segment instead of raising, for every
smoothing kernel; a short trace with an edge near its end instead aborts
with the numpy negative-dimension error from np.zeros, so short traces are
never rejected by a length check, and whether one returns a degenerate
result or hits an unrelated numpy error depends on the data. -/
theorem short_trace_no_error (gk : Frac → List Frac) (σ : Frac) :
    ungated_extraction gk 1 σ (List.replicate 30 0) = .ok [[]] ∧
      ungated_extraction gk 1 σ (List.replicate 50 0) = .ok [[]] ∧
      ungated_extraction gkId 1 sd20 (List.replicate 29 0 ++ [100]) =
        .error .negativeDimError := by
  refine ⟨?_, ?_, ?_⟩
  · unfold ungated_extraction ungated_extraction_st
    rw [convolve_derive_zero gk σ 30 (by omega)]
    rfl
  · unfold ungated_extraction ungated_extraction_st
    rw [convolve_derive_zero gk σ 50 (by omega)]
    rfl
  · rfl

/-- Counterexample to C3 as stated: the all-zero trace of length 30, which
is shorter than 2 x 20 samples, and the scenario-C trace of length 50 both
make extraction return a 1 x 0 result; no InsufficientDataError is raised
(none exists in the module). -/
theorem insufficient_data_cex :
    ungated_extraction gkId 1 sd20 (List.replicate 30 0) = .ok [[]] ∧
      (30 : Nat) < 2 * 20 ∧
      ungated_extraction gkId 1 sd20 (List.replicate 50 0) = .ok [[]] :=
  ⟨rfl, by decide, rfl⟩

/-- C7 (amended): the code defines no BoundaryError. An exclusion window
reaching outside the trace is silently clamped by Python slice semantics
(the zeroing assignment always preserves the array length and may zero
nothing), and a pulse slice reaching past the end of the trace is silently
truncated; the subsequent row assignment fails with a numpy broadcast error
exactly when the truncated slice has neither the uniform length nor
length 1. -/
theorem boundary_clamping :
    (∀ (cd : List Frac) (i : Nat), (zeroAroundEdge cd i).length = cd.length) ∧
      (∀ (Ln : Nat) (s : List ℤ),
        (assignRow Ln s).isNone = (!(s.length == Ln) && !(s.length == 1))) := by
  constructor
  · intro cd i
    exact length_zeroSlice cd _ _
  · intro Ln s
    unfold assignRow
    by_cases h1 : s.length = Ln
    · simp [h1]
    · by_cases h2 : s.length = 1
      · rw [if_neg h1, if_pos h2]
        simp [h2]
      · simp [h1, h2]

/-- Counterexample to C7 as stated: on the all-zero trace of length 50 the
detected edge is 0 and its exclusion window [0 - 100 : 0 + 100] extends
outside the trace on both sides, yet extraction returns normally instead of
signalling a BoundaryError. -/
theorem boundary_cex :
    ungatedEdges gkId 1 sd20 (List.replicate 50 0) = some ([0], [0]) ∧
      ((0 : Int) - 100 < 0) ∧
      ungated_extraction gkId 1 sd20 (List.replicate 50 0) = .ok [[]] :=
  ⟨rfl, by decide, rfl⟩

theorem gated_short (gk : Frac → List Frac) (σ : Frac) (count_data : List (List ℤ))
    (h2 : (sumRows count_data).length < 2) :
    gated_extraction gk σ count_data = .error .gradientError := by
  unfold gated_extraction convolve_derive
  rw [if_pos h2]

theorem gated_eval (gk : Frac → List Frac) (σ : Frac) (count_data : List (List ℤ))
    (h2 : ¬ (sumRows count_data).length < 2)
    (h3 : (sumRows count_data).length ≠ 2) :
    gated_extraction gk σ count_data = .error .unpackError := by
  unfold gated_extraction convolve_derive
  rw [if_neg h2]
  have hg : (np_gradient (gaussian_filter1d gk σ (sumRows count_data))).length =
      (sumRows count_data).length := by
    rw [length_np_gradient, length_gaussian_filter1d]
  show (if (np_gradient (gaussian_filter1d gk σ (sumRows count_data))).length = 2 then
      Except.ok (count_data.map (fun row => (row.drop 0).take (0 - 0)))
    else Except.error ExtractError.unpackError) = Except.error ExtractError.unpackError
  rw [if_neg (by rw [hg]; exact h3)]

/-- C9 (amended): for every gated input whose row sum has length other than
2, the gated path never returns a PulseSet: for length at least 3 the
unpacking of the single array returned by convolve_derive raises, while for
length below 2 numpy raises inside the gradient computation before the
unpacking is reached. -/
theorem gated_never_returns (gk : Frac → List Frac) (σ : Frac)
    (count_data : List (List ℤ)) (h : (sumRows count_data).length ≠ 2) :
    (∃ e, gated_extraction gk σ count_data = .error e) ∧
      (3 ≤ (sumRows count_data).length →
        gated_extraction gk σ count_data = .error .unpackError) := by
  by_cases hlen : (sumRows count_data).length < 2
  · exact ⟨⟨.gradientError, gated_short gk σ count_data hlen⟩,
      fun h3 => absurd h3 (by omega)⟩
  · exact ⟨⟨.unpackError, gated_eval gk σ count_data hlen h⟩,
      fun h3 => gated_eval gk σ count_data hlen h⟩

/-- Witness for the amended C9 at a gated 1 x 4 input: the row sum has
length 4, and the gated path raises the unpacking error. -/
theorem gated_never_returns_witness :
    (sumRows [[(0 : ℤ), 0, 0, 0]]).length ≠ 2 ∧
      ((∃ e, gated_extraction gkId sd20 [[(0 : ℤ), 0, 0, 0]] = .error e) ∧
        (3 ≤ (sumRows [[(0 : ℤ), 0, 0, 0]]).length →
          gated_extraction gkId sd20 [[(0 : ℤ), 0, 0, 0]] = .error .unpackError)) :=
  ⟨by decide, gated_never_returns gkId sd20 [[0, 0, 0, 0]] (by decide)⟩

/-- Counterexample to C9 as stated: on the gated 1 x 1 input [[5]] the row
sum has length 1, which is not 2, but the raised error is the gradient
shape error, not an unpacking error: np.gradient raises before the
unpacking is reached. -/
theorem gated_unpack_cex :
    gated_extraction gkId sd20 [[(5 : ℤ)]] = .error .gradientError ∧
      ExtractError.gradientError ≠ ExtractError.unpackError ∧
      (sumRows [[(5 : ℤ)]]).length ≠ 2 :=
  ⟨rfl, by decide, by decide⟩

/-- C1: evaluation of the gated path at a concrete failing input. On a
gated array of one row and four time bins the spec says extraction returns
one segment of length falling minus rising, but the code raises at the
unpacking conv_deriv, conv = convolve_derive(...), since convolve_derive
returns a single array of length 4. -/
theorem gated_crash_eval :
    gated_extraction gkId sd20 [[(0 : ℤ), 0, 0, 0]] = .error .unpackError := rfl

end PulseExtraction
